import Mathlib

/-!
# Verification of the conforming-cap construction engine (lamp-designer)

Shallow embedding, over the real numbers, of the 2D contour-building code of
the repository's cap engine:

* `Geometry.innerRadiusAt` — the boundary oracle from `src/geometry.js`;
* namespace `Caps` — the canonical keyhole variant of `src/caps.js`
  (`buildConformingCap`, `buildCirclePath`, `buildKeyholePath`, `arcCW`,
  `buildSlotDebug`);
* namespace `Part000` — the earlier radial-slot variant (`addCircleHole`,
  `addRadialSlot`, its `buildConformingCap`).

Paths (`THREE.Path` built from `moveTo`/`lineTo`) are embedded as ordered
vertex lists in `ℝ × ℝ`; `closePath` is reflected by the first and last
vertices of the list coinciding.  Extrusion along +Z by `capH` translated by
`zOff` is reflected by the axial interval `[zMin, zMax]`.  Per §2 of the
design document the boundary oracle is an external collaborator, so the cap
builders take it as an explicit function argument `oracle : ℝ → ℝ → ℝ`
(height fraction and angle to radius); `Geometry.innerRadiusAt` is the
repository's concrete oracle and satisfies the `≥ 1` floor assumed of it.
-/

noncomputable section

open Real

/-- A 2D point of the cap plane. -/
abbrev Point : Type := ℝ × ℝ

/-- The point at polar coordinates `(r, a)`: `(r·cos a, r·sin a)`. -/
def polar (r a : ℝ) : Point := (r * Real.cos a, r * Real.sin a)

/-- Cross product of two points viewed as vectors; the building block of the
shoelace (signed area) formula. -/
def cross (p q : Point) : ℝ := p.1 * q.2 - q.1 * p.2

/-- Twice the signed area of the polygon described by a vertex list whose
last vertex repeats the first (the shoelace sum over consecutive pairs). -/
def shoelace : List Point → ℝ
  | p :: q :: rest => cross p q + shoelace (q :: rest)
  | _ => 0

theorem cross_polar (r s a b : ℝ) :
    cross (polar r a) (polar s b) = r * s * Real.sin (b - a) := by
  simp only [cross, polar, Real.sin_sub]
  ring

theorem shoelace_nil : shoelace [] = 0 := rfl

theorem shoelace_singleton (p : Point) : shoelace [p] = 0 := rfl

theorem shoelace_cons_cons (p q : Point) (l : List Point) :
    shoelace (p :: q :: l) = cross p q + shoelace (q :: l) := rfl

/-- Shoelace of a polyline sampled by `f` over `0, …, n`: the sum of the
cross products of consecutive samples. -/
theorem shoelace_map_range (n : ℕ) (f : ℕ → Point) :
    shoelace ((List.range (n + 1)).map f)
      = ∑ i ∈ Finset.range n, cross (f i) (f (i + 1)) := by
  induction n generalizing f with
  | zero => simp [shoelace]
  | succ m ih =>
    have h1 : List.range (m + 2) = 0 :: (List.range (m + 1)).map Nat.succ :=
      List.range_succ_eq_map (m + 1)
    have h2 : List.range (m + 1) = 0 :: (List.range m).map Nat.succ :=
      List.range_succ_eq_map m
    have hmap : (List.range (m + 2)).map f
        = f 0 :: (List.range (m + 1)).map (fun i => f (i + 1)) := by
      rw [h1, List.map_cons, List.map_map]
      rfl
    rw [hmap]
    rw [show ((List.range (m + 1)).map (fun i => f (i + 1)))
          = f 1 :: ((List.range m).map (fun i => f (i + 1 + 1))) by
        rw [h2, List.map_cons, List.map_map]; rfl]
    rw [shoelace_cons_cons, ← show ((List.range (m + 1)).map (fun i => f (i + 1)))
          = f 1 :: ((List.range m).map (fun i => f (i + 1 + 1))) by
        rw [h2, List.map_cons, List.map_map]; rfl]
    rw [ih (fun i => f (i + 1))]
    rw [Finset.sum_range_succ' (fun i => cross (f i) (f (i + 1))) m]
    ring

/-- JavaScript `x ?? d` on an optional numeric field. -/
def jsNullish (o : Option ℝ) (d : ℝ) : ℝ := o.getD d

/-- JavaScript `x || d` on an optional numeric field (`0` is falsy). -/
def jsFalsyOr (o : Option ℝ) (d : ℝ) : ℝ :=
  match o with
  | some x => if x = 0 then d else x
  | none => d

/-- The slot options record consumed by the cap builders.  Absent fields are
`none`; the builders apply the source's own defaulting (`?? / || / typeof`). -/
structure SlotOptions where
  bottomSlot : Bool := false
  slotAngle : Option ℝ := none
  slotRoll : Option ℝ := none
  slotWidth : Option ℝ := none
  slotLength : Option ℝ := none
  slotOvershoot : Option ℝ := none
  slotOffset : Option ℝ := none

/-- Mesh resolution tier (`p.res`). -/
inductive Res | low | med | high

/-- Radial segment count: 96 (low) / 180 (med) / 300 (high). -/
def radialSegOf : Res → ℕ
  | Res.low => 96
  | Res.med => 180
  | Res.high => 300

/-- The cap-relevant parameters of the global parameter record. -/
structure CapParams where
  res : Res
  height : ℝ

namespace Geometry

/-- Ripple direction (`p.ripdir`). -/
inductive RipDir | vertical | horizontal

/-- Surface parameters consumed by `innerRadiusAt` (from `src/geometry.js`
and `src/params.js`). -/
structure GeomParams where
  rbase : ℝ
  topscale : ℝ
  waves : ℝ
  amp : ℝ
  twist : ℝ
  wallFixed : ℝ
  ripdir : RipDir

/-- `baseRadius(t, R0, R1)` from `src/geometry.js`:
`lerp(R0, R1, t) * (1 + 0.18 * (1 - |2t-1|^1.4))`. -/
def baseRadius (t R0 R1 : ℝ) : ℝ :=
  (R0 + (R1 - R0) * t) * (1 + 0.18 * (1 - |2 * t - 1| ^ (1.4 : ℝ)))

/-- `innerRadiusAt(p, v, ang)` from `src/geometry.js`: the boundary oracle.
Returns the inner-wall radius, clamped below by 1. -/
def innerRadiusAt (p : GeomParams) (v ang : ℝ) : ℝ :=
  let R0 := p.rbase
  let R1 := R0 * p.topscale
  let br := baseRadius v R0 R1
  let twist := p.twist * (Real.pi / 180)
  let phase := twist * v
  let rOuter :=
    match p.ripdir with
    | RipDir.vertical => br * (1 + p.amp * Real.sin (p.waves * ang + phase))
    | RipDir.horizontal => br * (1 + p.amp * Real.sin (p.waves * (2 * Real.pi) * v + 1.5 * ang))
  max 1 (rOuter - p.wallFixed)

/-- The oracle's output floor: `innerRadiusAt` never returns less than 1 mm,
the precondition §6 lets the cap engine assume. -/
theorem one_le_innerRadiusAt (p : GeomParams) (v ang : ℝ) :
    1 ≤ innerRadiusAt p v ang :=
  le_max_left _ _

end Geometry

namespace Caps

/-- The seam-avoiding angular perturbation `EPS = 1e-4`. -/
def EPS : ℝ := 1e-4

/-- Sample angle of the outer contour: `((i % N) / N) * 2π + EPS`. -/
def outerAngle (N i : ℕ) : ℝ := ((i % N : ℕ) : ℝ) / N * (2 * Real.pi) + EPS

/-- Outer boundary of the cap: `N + 1` samples of the oracle (closing seam
duplicated), each radius shrunk by the 0.995 clearance factor. -/
def buildOuterContour (oracle : ℝ → ℝ → ℝ) (vFrac : ℝ) (N : ℕ) : List Point :=
  (List.range (N + 1)).map fun i =>
    polar (oracle vFrac (outerAngle N i) * 0.995) (outerAngle N i)

/-- `buildCirclePath(radius, seg)`: the plain circular hole, vertices at
angles `(j/seg)·2π` for `j = seg` down to `0` (descending angle). -/
def buildCirclePath (radius : ℝ) (seg : ℕ) : List Point :=
  (List.range (seg + 1)).map fun k =>
    polar radius (((seg - k : ℕ) : ℝ) / seg * (2 * Real.pi))

/-- The end-angle adjustment of `arcCW`: `if (a1 >= a0) a1 -= 2π`. -/
def arcCWAdjEnd (aStart aEnd : ℝ) : ℝ :=
  if aStart ≤ aEnd then aEnd - 2 * Real.pi else aEnd

/-- `arcCW(path, cx, cy, r, aStart, aEnd, seg)`: the `seg` appended vertices
of a decreasing-angle arc about `(cx, cy)`. -/
def arcCW (cx cy r aStart aEnd : ℝ) (seg : ℕ) : List Point :=
  let a1 := arcCWAdjEnd aStart aEnd
  let step := (a1 - aStart) / seg
  (List.range seg).map fun i : ℕ =>
    (cx + r * Real.cos (aStart + step * ((i : ℝ) + 1)),
     cy + r * Real.sin (aStart + step * ((i : ℝ) + 1)))

/-- `theta = options.slotAngle ?? 0`. -/
def thetaOf (o : SlotOptions) : ℝ := jsNullish o.slotAngle 0

/-- `roll = options.slotRoll ?? 0`. -/
def rollOf (o : SlotOptions) : ℝ := jsNullish o.slotRoll 0

/-- `width = Math.max(0.5, options.slotWidth ?? 8)`. -/
def widthOf (o : SlotOptions) : ℝ := max 0.5 (jsNullish o.slotWidth 8)

/-- `halfW = width * 0.5`. -/
def halfWOf (o : SlotOptions) : ℝ := widthOf o * 0.5

/-- `overshoot = options.slotOvershoot ?? 1.0`. -/
def overshootOf (o : SlotOptions) : ℝ := jsNullish o.slotOvershoot 1.0

/-- `offset = options.slotOffset ?? 0.0`. -/
def offsetOf (o : SlotOptions) : ℝ := jsNullish o.slotOffset 0.0

/-- `vAng = theta - π/2 + roll`, the rolled width-axis direction. -/
def vAngOf (o : SlotOptions) : ℝ := thetaOf o - Real.pi / 2 + rollOf o

/-- `rInner = Math.max(0.1, holeR + offset)`, the mouth radius. -/
def rInnerOf (holeR : ℝ) (o : SlotOptions) : ℝ := max 0.1 (holeR + offsetOf o)

/-- `sinAlpha = Math.min(1 - 1e-6, halfW / rInner)`: the clamped tangency
ratio. -/
def sinAlphaOf (holeR : ℝ) (o : SlotOptions) : ℝ :=
  min (1 - 1e-6) (halfWOf o / rInnerOf holeR o)

/-- `alpha = Math.asin(sinAlpha)`, the tangency half-angle. -/
def alphaOf (holeR : ℝ) (o : SlotOptions) : ℝ := Real.arcsin (sinAlphaOf holeR o)

/-- `phi0 = theta + π/2`, the base angle of the circle-contact points. -/
def phi0Of (o : SlotOptions) : ℝ := thetaOf o + Real.pi / 2

/-- `phiR = phi0 - alpha`, the right circle-contact angle. -/
def phiROf (holeR : ℝ) (o : SlotOptions) : ℝ := phi0Of o - alphaOf holeR o

/-- `phiL = phi0 + alpha`, the left circle-contact angle. -/
def phiLOf (holeR : ℝ) (o : SlotOptions) : ℝ := phi0Of o + alphaOf holeR o

/-- The right circle-contact vertex `(rInner·cos phiR, rInner·sin phiR)`. -/
def cROf (holeR : ℝ) (o : SlotOptions) : Point :=
  polar (rInnerOf holeR o) (phiROf holeR o)

/-- The left circle-contact vertex `(rInner·cos phiL, rInner·sin phiL)`. -/
def cLOf (holeR : ℝ) (o : SlotOptions) : Point :=
  polar (rInnerOf holeR o) (phiLOf holeR o)

/-- `rAuto = innerRadiusAt(p, vFrac, theta) * 0.995`, the auto-to-rim
corridor radius. -/
def rAutoOf (oracle : ℝ → ℝ → ℝ) (vFrac : ℝ) (o : SlotOptions) : ℝ :=
  oracle vFrac (thetaOf o) * 0.995

/-- `rOuter = (options.slotLength && options.slotLength > 0) ?
(rInner + options.slotLength) : rAuto` (absent, zero and non-positive
lengths are all falsy or fail the `> 0` test). -/
def rOuterOf (oracle : ℝ → ℝ → ℝ) (vFrac holeR : ℝ) (o : SlotOptions) : ℝ :=
  match o.slotLength with
  | some L => if 0 < L then rInnerOf holeR o + L else rAutoOf oracle vFrac o
  | none => rAutoOf oracle vFrac o

/-- `rTip = rOuter + halfW + overshoot`, the tip-center radius. -/
def rTipOf (oracle : ℝ → ℝ → ℝ) (vFrac holeR : ℝ) (o : SlotOptions) : ℝ :=
  rOuterOf oracle vFrac holeR o + halfWOf o + overshootOf o

/-- The tip center `(ux·rTip, uy·rTip)`. -/
def tipCenterOf (oracle : ℝ → ℝ → ℝ) (vFrac holeR : ℝ) (o : SlotOptions) : Point :=
  (Real.cos (thetaOf o) * rTipOf oracle vFrac holeR o,
   Real.sin (thetaOf o) * rTipOf oracle vFrac holeR o)

/-- The tip-right edge vertex `tip + halfW·v`. -/
def tipRightOf (oracle : ℝ → ℝ → ℝ) (vFrac holeR : ℝ) (o : SlotOptions) : Point :=
  ((tipCenterOf oracle vFrac holeR o).1 + Real.cos (vAngOf o) * halfWOf o,
   (tipCenterOf oracle vFrac holeR o).2 + Real.sin (vAngOf o) * halfWOf o)

/-- The tip-left edge vertex `tip - halfW·v`. -/
def tipLeftOf (oracle : ℝ → ℝ → ℝ) (vFrac holeR : ℝ) (o : SlotOptions) : Point :=
  ((tipCenterOf oracle vFrac holeR o).1 - Real.cos (vAngOf o) * halfWOf o,
   (tipCenterOf oracle vFrac holeR o).2 - Real.sin (vAngOf o) * halfWOf o)

/-- `segBig = Math.max(24, Math.floor((2π - 2α) / (2π) * 96))`. -/
def segBigOf (holeR : ℝ) (o : SlotOptions) : ℕ :=
  max 24 (⌊(2 * Real.pi - 2 * alphaOf holeR o) / (2 * Real.pi) * 96⌋.toNat)

/-- `buildKeyholePath(p, vFrac, holeR, options)`: the single keyhole hole
path — right contact, right edge to the tip, tip arc, left edge back, then
the closing arc along the fitting circle from `phiL` to `phiR`. -/
def buildKeyholePath (oracle : ℝ → ℝ → ℝ) (vFrac holeR : ℝ) (o : SlotOptions) :
    List Point :=
  [cROf holeR o, tipRightOf oracle vFrac holeR o]
    ++ arcCW (tipCenterOf oracle vFrac holeR o).1 (tipCenterOf oracle vFrac holeR o).2
        (halfWOf o) (vAngOf o) (vAngOf o + Real.pi) 32
    ++ [cLOf holeR o]
    ++ arcCW 0 0 (rInnerOf holeR o) (phiLOf holeR o) (phiROf holeR o) (segBigOf holeR o)

/-- The result of `buildConformingCap`: the extruded polygon-with-holes,
recorded as the outer contour, the hole contours pushed onto the shape, and
the axial span `[zMin, zMax]` of the extrusion after translation. -/
structure CapResult where
  outer : List Point
  holes : List (List Point)
  zMin : ℝ
  zMax : ℝ

/-- `buildConformingCap(p, vFrac, capH, holeR, options)`, keyhole variant:
one hole — the keyhole when `options.bottomSlot && vFrac === 0`, the plain
96-segment circle otherwise; extrusion by `capH` placed at
`zOff = (vFrac === 1) ? height - capH : 0`. -/
def buildConformingCap (oracle : ℝ → ℝ → ℝ) (p : CapParams)
    (vFrac capH holeR : ℝ) (o : SlotOptions) : CapResult :=
  let radialSeg := radialSegOf p.res
  let keyhole :=
    if o.bottomSlot ∧ vFrac = 0 then buildKeyholePath oracle vFrac holeR o
    else buildCirclePath holeR 96
  let zOff := if vFrac = 1 then p.height - capH else 0
  { outer := buildOuterContour oracle vFrac radialSeg
    holes := [keyhole]
    zMin := zOff
    zMax := zOff + capH }

/-- The guide primitives emitted by `buildSlotDebug`: segments as endpoint
pairs, circles as center–radius pairs. -/
structure DebugGuides where
  centerline : Point × Point
  edgeRight : Point × Point
  edgeLeft : Point × Point
  tipCircle : Point × ℝ
  rimMarker : Point × ℝ
  tangRight : Point × ℝ
  tangLeft : Point × ℝ

/-- `buildSlotDebug(p, vFrac, holeR, options)`: `null` unless the slot is
enabled and `vFrac === 0`; otherwise the advisory guide set (note its
tangency markers sit at `theta ∓ alpha`). -/
def buildSlotDebug (oracle : ℝ → ℝ → ℝ) (vFrac holeR : ℝ) (o : SlotOptions) :
    Option DebugGuides :=
  if ¬ o.bottomSlot ∨ vFrac ≠ 0 then none
  else
    let theta := thetaOf o
    let halfW := halfWOf o
    let vAng := vAngOf o
    let rInner := rInnerOf holeR o
    let rAuto := rAutoOf oracle vFrac o
    let rOuter := rOuterOf oracle vFrac holeR o
    let rTip := rOuter + halfW + overshootOf o
    let alpha := alphaOf holeR o
    let phiR := theta - alpha
    let phiL := theta + alpha
    some
      { centerline := (polar rInner theta, polar rTip theta)
        edgeRight := ((rInner * Real.cos theta + Real.cos vAng * halfW,
                       rInner * Real.sin theta + Real.sin vAng * halfW),
                      (rTip * Real.cos theta + Real.cos vAng * halfW,
                       rTip * Real.sin theta + Real.sin vAng * halfW))
        edgeLeft := ((rInner * Real.cos theta - Real.cos vAng * halfW,
                      rInner * Real.sin theta - Real.sin vAng * halfW),
                     (rTip * Real.cos theta - Real.cos vAng * halfW,
                      rTip * Real.sin theta - Real.sin vAng * halfW))
        tipCircle := (polar rTip theta, halfW)
        rimMarker := (polar rAuto theta, 1.3)
        tangRight := (polar rInner phiR, 1.0)
        tangLeft := (polar rInner phiL, 1.0) }

end Caps

namespace Part000

/-- `addCircleHole(shape, radius, seg)` of the radial-slot variant: circle
vertices at angles `(j/seg)·2π` for `j = 0` up to `seg` (ascending angle). -/
def addCircleHole (radius : ℝ) (seg : ℕ) : List Point :=
  (List.range (seg + 1)).map fun j : ℕ =>
    polar radius ((j : ℝ) / seg * (2 * Real.pi))

/-- `arcPoints(path, cx, cy, r, a0, a1, seg)`: arc vertices from `a0` to
`a1` with no direction normalization. -/
def arcPoints (cx cy r a0 a1 : ℝ) (seg : ℕ) : List Point :=
  let step := (a1 - a0) / seg
  (List.range seg).map fun i : ℕ =>
    (cx + r * Real.cos (a0 + step * ((i : ℝ) + 1)),
     cy + r * Real.sin (a0 + step * ((i : ℝ) + 1)))

/-- `addRadialSlot(shape, rInner, rOuter, width, theta, seg)`: the straight
radial pill slot pushed as its own hole contour. -/
def addRadialSlot (rInner rOuter width theta : ℝ) (seg : ℕ) : List Point :=
  let halfW := width / 2
  let ux := Real.cos theta
  let uy := Real.sin theta
  let vx := -uy
  let vy := ux
  let p0x := ux * rInner
  let p0y := uy * rInner
  let p1x := ux * rOuter
  let p1y := uy * rOuter
  [(p0x + vx * halfW, p0y + vy * halfW), (p1x + vx * halfW, p1y + vy * halfW)]
    ++ arcPoints p1x p1y halfW (theta - Real.pi / 2) (theta + Real.pi / 2) seg
    ++ [(p0x - vx * halfW, p0y - vy * halfW)]
    ++ arcPoints p0x p0y halfW (theta + Real.pi / 2) (theta - Real.pi / 2) seg

/-- `buildConformingCap` of the radial-slot variant (`part_000`): always
pushes the circular hole; when `bottomSlot && vFrac === 0`, additionally
pushes the radial slot as a second hole contour, guarded by
`rOuter > rInner + 2` (the slot is silently skipped otherwise). -/
def buildConformingCap (oracle : ℝ → ℝ → ℝ) (p : CapParams)
    (vFrac capH holeR : ℝ) (o : SlotOptions) : Caps.CapResult :=
  let radialSeg := radialSegOf p.res
  let circleHole := addCircleHole holeR 96
  let holes :=
    if o.bottomSlot ∧ vFrac = 0 then
      let slotAngle := jsNullish o.slotAngle 0
      let slotWidth := max 6 (jsFalsyOr o.slotWidth 8)
      let rInner := holeR
      let rOuter := oracle vFrac slotAngle * 0.995
      if rInner + 2 < rOuter then
        [circleHole, addRadialSlot rInner rOuter slotWidth slotAngle 48]
      else [circleHole]
    else [circleHole]
  let zOffset := if vFrac = 1 then p.height - capH else 0
  { outer := Caps.buildOuterContour oracle vFrac radialSeg
    holes := holes
    zMin := zOffset
    zMax := zOffset + capH }

end Part000

/-! ## Concrete fixtures used to instantiate the theorems -/

/-- A constant boundary oracle returning 60 mm everywhere. -/
def oracle60 : ℝ → ℝ → ℝ := fun _ _ => 60

/-- A constant boundary oracle returning the minimal 1 mm everywhere (a
surface whose rim is as tight as the oracle's floor allows). -/
def oracle1 : ℝ → ℝ → ℝ := fun _ _ => 1

/-- Scenario-1 slot options: slot enabled, angle 0, width 8 mm, auto length. -/
def slotOpts8 : SlotOptions :=
  { bottomSlot := true, slotAngle := some 0, slotWidth := some 8,
    slotLength := some 0 }

/-- Scenario-2 slot options: width 40 mm with a 20 mm hole radius. -/
def slotOpts40 : SlotOptions :=
  { bottomSlot := true, slotAngle := some 0, slotWidth := some 40 }

/-- Slot disabled (all defaults). -/
def slotOptsNone : SlotOptions := {}

/-- Slot enabled with an explicit negative corridor length. -/
def slotOptsNeg : SlotOptions :=
  { bottomSlot := true, slotAngle := some 0, slotLength := some (-5) }

/-- Low-resolution parameters with the default 230 mm height. -/
def pLow : CapParams := { res := Res.low, height := 230 }

/-! ## Supporting lemmas about sampled paths -/

theorem head_map_range (f : ℕ → Point) (n : ℕ) (hn : 0 < n) :
    ((List.range n).map f).head? = some (f 0) := by
  obtain ⟨m, rfl⟩ := Nat.exists_eq_add_of_lt hn
  rw [show 0 + m + 1 = m + 1 by omega, List.range_succ_eq_map, List.map_cons]
  rfl

theorem getLast_map_range (f : ℕ → Point) (n : ℕ) (hn : 0 < n) :
    ((List.range n).map f).getLast? = some (f (n - 1)) := by
  obtain ⟨m, rfl⟩ := Nat.exists_eq_add_of_lt hn
  rw [show 0 + m + 1 = m + 1 by omega]
  rw [show List.range (m + 1) = List.range m ++ [m] from List.range_succ m,
    List.map_append]
  simp [List.getLast?_concat]

theorem getLast_append_of_ne_nil {l₁ l₂ : List Point} (h : l₂ ≠ []) :
    (l₁ ++ l₂).getLast? = l₂.getLast? := by
  rw [List.getLast?_append]
  obtain ⟨x, hx⟩ := Option.isSome_iff_exists.mp (List.getLast?_isSome.mpr h)
  rw [hx]
  rfl

theorem map_range_ne_nil (f : ℕ → Point) (n : ℕ) (hn : 0 < n) :
    (List.range n).map f ≠ [] := by
  intro h
  have hl := congrArg List.length h
  simp at hl
  omega

namespace Caps

theorem arcCW_ne_nil (cx cy r a0 a1 : ℝ) (seg : ℕ) (hseg : 0 < seg) :
    arcCW cx cy r a0 a1 seg ≠ [] :=
  map_range_ne_nil _ _ hseg

/-- Whatever the direction adjustment, the last vertex of `arcCW` sits at
angle `aEnd` (the subtracted `2π` is invisible to `cos`/`sin`). -/
theorem arcCW_getLast (cx cy r a0 a1 : ℝ) (seg : ℕ) (hseg : 0 < seg) :
    (arcCW cx cy r a0 a1 seg).getLast?
      = some (cx + r * Real.cos a1, cy + r * Real.sin a1) := by
  have hne : (seg : ℝ) ≠ 0 := Nat.cast_ne_zero.mpr (Nat.pos_iff_ne_zero.mp hseg)
  unfold arcCW
  rw [getLast_map_range _ _ hseg]
  have hcast : ((seg - 1 : ℕ) : ℝ) + 1 = (seg : ℝ) := by
    rw [Nat.cast_sub hseg]
    ring
  have hang : a0 + (arcCWAdjEnd a0 a1 - a0) / (seg : ℝ) * (((seg - 1 : ℕ) : ℝ) + 1)
      = arcCWAdjEnd a0 a1 := by
    rw [hcast]
    field_simp
  rw [hang]
  unfold arcCWAdjEnd
  by_cases h : a0 ≤ a1
  · rw [if_pos h, Real.cos_sub_two_pi, Real.sin_sub_two_pi]
  · rw [if_neg h]

/-- The keyhole path starts at the right circle-contact vertex. -/
theorem buildKeyholePath_head (oracle : ℝ → ℝ → ℝ) (vFrac holeR : ℝ)
    (o : SlotOptions) :
    (buildKeyholePath oracle vFrac holeR o).head? = some (cROf holeR o) := rfl

/-- The keyhole path's last vertex is again the right circle-contact vertex:
the contour closes exactly. -/
theorem buildKeyholePath_getLast (oracle : ℝ → ℝ → ℝ) (vFrac holeR : ℝ)
    (o : SlotOptions) :
    (buildKeyholePath oracle vFrac holeR o).getLast? = some (cROf holeR o) := by
  have hseg : 0 < segBigOf holeR o :=
    lt_of_lt_of_le (by norm_num) (le_max_left 24 _)
  have harc : arcCW 0 0 (rInnerOf holeR o) (phiLOf holeR o) (phiROf holeR o)
      (segBigOf holeR o) ≠ [] :=
    arcCW_ne_nil _ _ _ _ _ _ hseg
  unfold buildKeyholePath
  rw [getLast_append_of_ne_nil harc, arcCW_getLast _ _ _ _ _ _ hseg]
  simp [cROf, polar]

end Caps

/-! ## Winding (signed area) lemmas -/

theorem sin_two_pi_div_pos (n : ℕ) (hn : 3 ≤ n) : 0 < Real.sin (2 * π / n) := by
  have hn0 : (0 : ℝ) < n := by
    exact_mod_cast Nat.lt_of_lt_of_le (by norm_num) hn
  have hn3 : (3 : ℝ) ≤ n := by exact_mod_cast hn
  apply Real.sin_pos_of_pos_of_lt_pi
  · positivity
  · rw [div_lt_iff₀ hn0]
    nlinarith [Real.pi_pos]

/-- The canonical variant's `buildCirclePath` (descending angle) has negative
signed area: it is a clockwise contour. -/
theorem shoelace_buildCirclePath_neg (r : ℝ) (hr : 0 < r) (seg : ℕ)
    (hseg : 3 ≤ seg) :
    shoelace (Caps.buildCirclePath r seg) < 0 := by
  have hs0 : (0 : ℝ) < seg := by
    exact_mod_cast Nat.lt_of_lt_of_le (by norm_num) hseg
  unfold Caps.buildCirclePath
  rw [shoelace_map_range]
  apply Finset.sum_neg ?_ (Finset.nonempty_range_iff.mpr (by omega))
  intro k hk
  rw [Finset.mem_range] at hk
  rw [cross_polar]
  have ha : ((seg - (k + 1) : ℕ) : ℝ) / seg * (2 * π)
      - ((seg - k : ℕ) : ℝ) / seg * (2 * π) = -(2 * π / seg) := by
    rw [Nat.cast_sub (by omega), Nat.cast_sub (by omega)]
    field_simp
    ring
  rw [ha, Real.sin_neg]
  have hsin := sin_two_pi_div_pos seg hseg
  have hpos := mul_pos (mul_pos hr hr) hsin
  linarith

/-- The `part_000` variant's `addCircleHole` (ascending angle) has positive
signed area: it is a counterclockwise contour. -/
theorem shoelace_addCircleHole_pos (r : ℝ) (hr : 0 < r) (seg : ℕ)
    (hseg : 3 ≤ seg) :
    0 < shoelace (Part000.addCircleHole r seg) := by
  have hs0 : (0 : ℝ) < seg := by
    exact_mod_cast Nat.lt_of_lt_of_le (by norm_num) hseg
  unfold Part000.addCircleHole
  rw [shoelace_map_range]
  apply Finset.sum_pos ?_ (Finset.nonempty_range_iff.mpr (by omega))
  intro k hk
  rw [cross_polar]
  have ha : ((k : ℝ) + 1) / seg * (2 * π) - (k : ℝ) / seg * (2 * π)
      = 2 * π / seg := by
    field_simp
    ring
  rw [show (((k + 1 : ℕ) : ℝ)) = (k : ℝ) + 1 by push_cast; ring, ha]
  have hsin := sin_two_pi_div_pos seg hseg
  have hpos := mul_pos (mul_pos hr hr) hsin
  linarith

/-- The outer contour (ascending angle, radius from a positive oracle) has
positive signed area: it is a counterclockwise contour. -/
theorem shoelace_buildOuterContour_pos (oracle : ℝ → ℝ → ℝ) (vFrac : ℝ)
    (N : ℕ) (hN : 3 ≤ N) (hor : ∀ ang, 0 < oracle vFrac ang) :
    0 < shoelace (Caps.buildOuterContour oracle vFrac N) := by
  have hN0 : (0 : ℝ) < N := by
    exact_mod_cast Nat.lt_of_lt_of_le (by norm_num) hN
  unfold Caps.buildOuterContour
  rw [shoelace_map_range]
  apply Finset.sum_pos ?_ (Finset.nonempty_range_iff.mpr (by omega))
  intro i hi
  rw [Finset.mem_range] at hi
  rw [cross_polar]
  have hri : 0 < oracle vFrac (Caps.outerAngle N i) * 0.995 :=
    mul_pos (hor _) (by norm_num)
  have hri1 : 0 < oracle vFrac (Caps.outerAngle N (i + 1)) * 0.995 :=
    mul_pos (hor _) (by norm_num)
  have hsin : Real.sin (Caps.outerAngle N (i + 1) - Caps.outerAngle N i)
      = Real.sin (2 * π / N) := by
    by_cases hc : i + 1 < N
    · have h1 : (i + 1) % N = i + 1 := Nat.mod_eq_of_lt hc
      have h2 : i % N = i := Nat.mod_eq_of_lt (by omega)
      unfold Caps.outerAngle
      rw [h1, h2]
      congr 1
      push_cast
      field_simp
      ring
    · have hiN : i + 1 = N := by omega
      have h1 : (i + 1) % N = 0 := by rw [hiN]; exact Nat.mod_self N
      have h2 : i % N = i := Nat.mod_eq_of_lt (by omega)
      unfold Caps.outerAngle
      rw [h1, h2]
      have hcast : (i : ℝ) = (N : ℝ) - 1 := by
        have : ((i : ℕ) : ℝ) + 1 = ((i + 1 : ℕ) : ℝ) := by push_cast; ring
        rw [show i = N - 1 by omega, Nat.cast_sub (by omega)]
        norm_num
      have harg : ((0 : ℕ) : ℝ) / N * (2 * π) + Caps.EPS
          - ((i : ℝ) / N * (2 * π) + Caps.EPS) = 2 * π / N - 2 * π := by
        rw [hcast]
        field_simp
        ring
      rw [harg, Real.sin_sub_two_pi]
  rw [hsin]
  have hsinpos := sin_two_pi_div_pos N hN
  positivity

/-! ## Elementary facts about the keyhole quantities -/

theorem three_le_radialSegOf (r : Res) : 3 ≤ radialSegOf r := by
  cases r <;> norm_num [radialSegOf]

namespace Caps

theorem halfWOf_pos (o : SlotOptions) : 0 < halfWOf o := by
  have h : (0.5 : ℝ) ≤ widthOf o := le_max_left _ _
  unfold halfWOf
  nlinarith

theorem rInnerOf_pos (holeR : ℝ) (o : SlotOptions) : 0 < rInnerOf holeR o :=
  lt_of_lt_of_le (by norm_num) (le_max_left 0.1 _)

theorem sinAlphaOf_pos (holeR : ℝ) (o : SlotOptions) : 0 < sinAlphaOf holeR o :=
  lt_min (by norm_num) (div_pos (halfWOf_pos o) (rInnerOf_pos holeR o))

theorem sinAlphaOf_le (holeR : ℝ) (o : SlotOptions) :
    sinAlphaOf holeR o ≤ 1 - 1e-6 :=
  min_le_left _ _

theorem alphaOf_pos (holeR : ℝ) (o : SlotOptions) : 0 < alphaOf holeR o :=
  Real.arcsin_pos.mpr (sinAlphaOf_pos holeR o)

theorem alphaOf_lt_pi_div_two (holeR : ℝ) (o : SlotOptions) :
    alphaOf holeR o < π / 2 :=
  Real.arcsin_lt_pi_div_two.mpr
    (lt_of_le_of_lt (sinAlphaOf_le holeR o) (by norm_num))

theorem segBigOf_pos (holeR : ℝ) (o : SlotOptions) : 0 < segBigOf holeR o :=
  lt_of_lt_of_le (by norm_num) (le_max_left 24 _)

theorem sinAlphaOf_slotOpts8 : sinAlphaOf 20 slotOpts8 = 1 / 5 := by
  have h1 : max (0.5 : ℝ) 8 = 8 := max_eq_right (by norm_num)
  have h2 : max (0.1 : ℝ) (20 + 0.0) = 20 := by
    rw [max_eq_right (by norm_num)]
    norm_num
  unfold sinAlphaOf halfWOf widthOf rInnerOf offsetOf jsNullish
  simp only [slotOpts8, Option.getD_some, Option.getD_none]
  rw [h1, h2]
  rw [min_eq_right (by norm_num)]
  norm_num

theorem alphaOf_slotOpts8 : alphaOf 20 slotOpts8 = Real.arcsin (1 / 5) := by
  unfold alphaOf
  rw [sinAlphaOf_slotOpts8]

theorem rInnerOf_slotOpts8 : rInnerOf 20 slotOpts8 = 20 := by
  unfold rInnerOf offsetOf jsNullish
  simp only [slotOpts8, Option.getD_none]
  rw [max_eq_right (by norm_num)]
  norm_num

theorem thetaOf_slotOpts8 : thetaOf slotOpts8 = 0 := by
  unfold thetaOf jsNullish
  simp [slotOpts8]

theorem cos_arcsin_fifth_pos : 0 < Real.cos (Real.arcsin (1 / 5)) := by
  rw [Real.cos_arcsin]
  apply Real.sqrt_pos.mpr
  norm_num

end Caps

theorem mem_of_getLast_eq {l : List Point} {a : Point} (h : l.getLast? = some a) :
    a ∈ l := by
  obtain ⟨hne, rfl⟩ := List.mem_getLast?_eq_getLast (by rw [h]; exact rfl)
  exact List.getLast_mem hne

/-! ## Claim C2: placement of the circle-contact (tangency) points -/

/-- C2, corrected: in `buildKeyholePath` the tangency half-angle is
`α = asin (min (1 - 1e-6) (halfW / rInner))` as claimed, but the two
circle-contact vertices sit at polar angles `θ + π/2 ∓ α` (base angle
`θ + π/2`, not `θ`): the path starts at the right contact vertex
`polar rInner (θ + π/2 - α)`, passes through the left contact vertex
`polar rInner (θ + π/2 + α)`, and both lie on the circle of radius
`rInner`. -/
theorem C2_keyhole_tangency (oracle : ℝ → ℝ → ℝ) (vFrac holeR : ℝ)
    (o : SlotOptions) :
    Caps.alphaOf holeR o
        = Real.arcsin (min (1 - 1e-6) (Caps.halfWOf o / Caps.rInnerOf holeR o))
    ∧ (Caps.buildKeyholePath oracle vFrac holeR o).head?
        = some (polar (Caps.rInnerOf holeR o)
            (Caps.thetaOf o + π / 2 - Caps.alphaOf holeR o))
    ∧ polar (Caps.rInnerOf holeR o) (Caps.thetaOf o + π / 2 + Caps.alphaOf holeR o)
        ∈ Caps.buildKeyholePath oracle vFrac holeR o
    ∧ (polar (Caps.rInnerOf holeR o)
          (Caps.thetaOf o + π / 2 - Caps.alphaOf holeR o)).1 ^ 2
        + (polar (Caps.rInnerOf holeR o)
            (Caps.thetaOf o + π / 2 - Caps.alphaOf holeR o)).2 ^ 2
        = Caps.rInnerOf holeR o ^ 2 := by
  refine ⟨rfl, ?_, ?_, ?_⟩
  · rw [Caps.buildKeyholePath_head]
    rfl
  · have hmem : Caps.cLOf holeR o ∈ Caps.buildKeyholePath oracle vFrac holeR o := by
      unfold Caps.buildKeyholePath
      simp
    exact hmem
  · have h := Real.sin_sq_add_cos_sq
      (Caps.thetaOf o + π / 2 - Caps.alphaOf holeR o)
    simp only [polar]
    linear_combination Caps.rInnerOf holeR o ^ 2 * h

/-- C2 counterexample: with `θ = 0`, `holeR = 20`, `width = 8`, the keyhole's
starting (right-contact) vertex is NOT the fitting-circle point at polar
angle `θ - α` the claim describes — the actual contact angle is
`θ + π/2 - α`. -/
theorem C2_counterexample :
    (Caps.buildKeyholePath oracle60 0 20 slotOpts8).head?
      ≠ some (polar 20 (Caps.thetaOf slotOpts8 - Caps.alphaOf 20 slotOpts8)) := by
  rw [Caps.buildKeyholePath_head]
  intro h
  injection h with h'
  have h2 := congrArg Prod.snd h'
  unfold Caps.cROf Caps.phiROf Caps.phi0Of polar at h2
  rw [Caps.thetaOf_slotOpts8, Caps.alphaOf_slotOpts8, Caps.rInnerOf_slotOpts8] at h2
  simp only at h2
  rw [show (0 : ℝ) + π / 2 - Real.arcsin (1 / 5) = π / 2 - Real.arcsin (1 / 5) by
        ring,
      Real.sin_pi_div_two_sub,
      show (0 : ℝ) - Real.arcsin (1 / 5) = -Real.arcsin (1 / 5) by ring,
      Real.sin_neg, Real.sin_arcsin (by norm_num) (by norm_num)] at h2
  have hcos := Caps.cos_arcsin_fifth_pos
  nlinarith

/-! ## Claim C3: the closing arc along the fitting circle -/

/-- C3, corrected: the closing arc is appended by `arcCW` from the left
contact angle `phiL` down to the right contact angle `phiR`; because
`phiR < phiL` the direction adjustment does not fire and the signed sweep is
`-(2α)` — the SHORT arc through the mouth.  Accordingly every vertex of the
closing arc lies on the fitting circle at an angle inside `[phiR, phiL]`
(the mouth range), not on the `2π - 2α` complement. -/
theorem C3_closing_arc_short (holeR : ℝ) (o : SlotOptions) :
    Caps.arcCWAdjEnd (Caps.phiLOf holeR o) (Caps.phiROf holeR o)
        - Caps.phiLOf holeR o = -(2 * Caps.alphaOf holeR o)
    ∧ ∀ q ∈ Caps.arcCW 0 0 (Caps.rInnerOf holeR o) (Caps.phiLOf holeR o)
        (Caps.phiROf holeR o) (Caps.segBigOf holeR o),
        ∃ a, Caps.phiROf holeR o ≤ a ∧ a ≤ Caps.phiLOf holeR o
          ∧ q = polar (Caps.rInnerOf holeR o) a := by
  have hα := Caps.alphaOf_pos holeR o
  have hlt : Caps.phiROf holeR o < Caps.phiLOf holeR o := by
    unfold Caps.phiROf Caps.phiLOf
    linarith
  have hadj : Caps.arcCWAdjEnd (Caps.phiLOf holeR o) (Caps.phiROf holeR o)
      = Caps.phiROf holeR o := if_neg (not_le.mpr hlt)
  constructor
  · rw [hadj]
    unfold Caps.phiROf Caps.phiLOf
    ring
  · intro q hq
    unfold Caps.arcCW at hq
    simp only [hadj, List.mem_map, List.mem_range] at hq
    obtain ⟨i, hi, rfl⟩ := hq
    have hn : 0 < Caps.segBigOf holeR o := Caps.segBigOf_pos holeR o
    have hnR : (0 : ℝ) < (Caps.segBigOf holeR o : ℝ) := by exact_mod_cast hn
    have hstep : (Caps.phiROf holeR o - Caps.phiLOf holeR o)
        / (Caps.segBigOf holeR o : ℝ) < 0 :=
      div_neg_of_neg_of_pos (by linarith) hnR
    have hi1 : ((i : ℝ) + 1) ≤ (Caps.segBigOf holeR o : ℝ) := by
      exact_mod_cast Nat.succ_le_of_lt hi
    have hi0 : (0 : ℝ) ≤ (i : ℝ) + 1 := by positivity
    refine ⟨Caps.phiLOf holeR o + (Caps.phiROf holeR o - Caps.phiLOf holeR o)
        / (Caps.segBigOf holeR o : ℝ) * ((i : ℝ) + 1), ?_, ?_, ?_⟩
    · have hmul : (Caps.phiROf holeR o - Caps.phiLOf holeR o)
            / (Caps.segBigOf holeR o : ℝ) * ((i : ℝ) + 1)
          ≥ (Caps.phiROf holeR o - Caps.phiLOf holeR o)
            / (Caps.segBigOf holeR o : ℝ) * (Caps.segBigOf holeR o : ℝ) := by
        nlinarith [mul_nonneg (sub_nonneg.mpr hi1) (neg_nonneg.mpr (le_of_lt hstep))]
      have hcancel : (Caps.phiROf holeR o - Caps.phiLOf holeR o)
            / (Caps.segBigOf holeR o : ℝ) * (Caps.segBigOf holeR o : ℝ)
          = Caps.phiROf holeR o - Caps.phiLOf holeR o :=
        div_mul_cancel₀ _ (ne_of_gt hnR)
      linarith
    · have hle : (Caps.phiROf holeR o - Caps.phiLOf holeR o)
            / (Caps.segBigOf holeR o : ℝ) * ((i : ℝ) + 1) ≤ 0 :=
        mul_nonpos_of_nonpos_of_nonneg (le_of_lt hstep) hi0
      linarith
    · simp [polar]

/-- C3 counterexample: at `holeR = 20`, `width = 8`, the closing arc's signed
sweep is `-(2·asin(1/5))`, and the short magnitude `2·asin(1/5)` differs
from the claimed big-arc sweep `2π - 2·asin(1/5)`. -/
theorem C3_counterexample :
    Caps.arcCWAdjEnd (Caps.phiLOf 20 slotOpts8) (Caps.phiROf 20 slotOpts8)
        - Caps.phiLOf 20 slotOpts8 = -(2 * Real.arcsin (1 / 5))
    ∧ 2 * Real.arcsin (1 / 5) ≠ 2 * π - 2 * Real.arcsin (1 / 5) := by
  constructor
  · have hα := Caps.alphaOf_pos 20 slotOpts8
    have hlt : Caps.phiROf 20 slotOpts8 < Caps.phiLOf 20 slotOpts8 := by
      unfold Caps.phiROf Caps.phiLOf
      linarith
    rw [Caps.arcCWAdjEnd, if_neg (not_le.mpr hlt)]
    unfold Caps.phiROf Caps.phiLOf
    rw [Caps.alphaOf_slotOpts8]
    ring
  · intro heq
    have hlt2 : Real.arcsin (1 / 5) < π / 2 :=
      Real.arcsin_lt_pi_div_two.mpr (by norm_num)
    linarith

/-- C3 witness: the amended statement instantiated on a vertex of the
concrete closing arc for `holeR = 20`, `width = 8`. -/
theorem C3_witness :
    ∃ q, q ∈ Caps.arcCW 0 0 (Caps.rInnerOf 20 slotOpts8)
        (Caps.phiLOf 20 slotOpts8) (Caps.phiROf 20 slotOpts8)
        (Caps.segBigOf 20 slotOpts8)
      ∧ ∃ a, Caps.phiROf 20 slotOpts8 ≤ a ∧ a ≤ Caps.phiLOf 20 slotOpts8
          ∧ q = polar (Caps.rInnerOf 20 slotOpts8) a := by
  obtain ⟨q, hq⟩ := List.exists_mem_of_ne_nil _
    (Caps.arcCW_ne_nil _ _ _ _ _ _ (Caps.segBigOf_pos 20 slotOpts8))
  exact ⟨q, hq, (C3_closing_arc_short 20 slotOpts8).2 q hq⟩

/-! ## Claim C1: one merged keyhole contour vs. two separate holes -/

/-- C1, corrected (keyhole variant side): when the slot is enabled on the
bottom cap, the canonical `buildConformingCap` pushes exactly ONE hole
contour — the keyhole path — which closes exactly (first vertex = last
vertex = the right contact point) and passes through the four landmarks:
the two circle-contact vertices and the two tip-edge vertices. -/
theorem C1_keyhole_single_contour (oracle : ℝ → ℝ → ℝ) (p : CapParams)
    (capH holeR : ℝ) (o : SlotOptions) (hslot : o.bottomSlot = true) :
    (Caps.buildConformingCap oracle p 0 capH holeR o).holes
        = [Caps.buildKeyholePath oracle 0 holeR o]
    ∧ (Caps.buildKeyholePath oracle 0 holeR o).head? = some (Caps.cROf holeR o)
    ∧ (Caps.buildKeyholePath oracle 0 holeR o).getLast? = some (Caps.cROf holeR o)
    ∧ Caps.tipRightOf oracle 0 holeR o ∈ Caps.buildKeyholePath oracle 0 holeR o
    ∧ Caps.tipLeftOf oracle 0 holeR o ∈ Caps.buildKeyholePath oracle 0 holeR o
    ∧ Caps.cLOf holeR o ∈ Caps.buildKeyholePath oracle 0 holeR o := by
  refine ⟨?_, Caps.buildKeyholePath_head oracle 0 holeR o,
    Caps.buildKeyholePath_getLast oracle 0 holeR o, ?_, ?_, ?_⟩
  · unfold Caps.buildConformingCap
    rw [if_pos ⟨hslot, rfl⟩]
  · unfold Caps.buildKeyholePath
    simp
  · have harc := Caps.arcCW_getLast (Caps.tipCenterOf oracle 0 holeR o).1
      (Caps.tipCenterOf oracle 0 holeR o).2 (Caps.halfWOf o) (Caps.vAngOf o)
      (Caps.vAngOf o + π) 32 (by norm_num)
    rw [Real.cos_add_pi, Real.sin_add_pi,
      show (Caps.tipCenterOf oracle 0 holeR o).1
          + Caps.halfWOf o * -Real.cos (Caps.vAngOf o)
        = (Caps.tipCenterOf oracle 0 holeR o).1
          - Real.cos (Caps.vAngOf o) * Caps.halfWOf o by ring,
      show (Caps.tipCenterOf oracle 0 holeR o).2
          + Caps.halfWOf o * -Real.sin (Caps.vAngOf o)
        = (Caps.tipCenterOf oracle 0 holeR o).2
          - Real.sin (Caps.vAngOf o) * Caps.halfWOf o by ring] at harc
    have hmem := mem_of_getLast_eq harc
    unfold Caps.buildKeyholePath
    exact List.mem_append_left _
      (List.mem_append_left _ (List.mem_append_right _ hmem))
  · unfold Caps.buildKeyholePath
    simp

/-- C1 counterexample: the radial-slot variant (`part_000`) pushes the
circular hole AND the slot as TWO separate hole contours on a bottom-cap
build with the slot enabled and ample rim clearance. -/
theorem C1_counterexample :
    (Part000.buildConformingCap oracle60 pLow 0 5 20 slotOpts8).holes
        = [Part000.addCircleHole 20 96,
           Part000.addRadialSlot 20 (60 * 0.995) 8 0 48]
    ∧ (Part000.buildConformingCap oracle60 pLow 0 5 20 slotOpts8).holes.length
        = 2 := by
  have hw : max (6 : ℝ) (jsFalsyOr slotOpts8.slotWidth 8) = 8 := by
    unfold jsFalsyOr
    simp only [slotOpts8]
    rw [if_neg (by norm_num)]
    exact max_eq_right (by norm_num)
  have hθ : jsNullish slotOpts8.slotAngle 0 = 0 := by
    unfold jsNullish
    simp [slotOpts8]
  have hholes : (Part000.buildConformingCap oracle60 pLow 0 5 20 slotOpts8).holes
      = [Part000.addCircleHole 20 96,
         Part000.addRadialSlot 20 (60 * 0.995) 8 0 48] := by
    simp only [Part000.buildConformingCap]
    rw [hθ, hw]
    rw [if_pos (show slotOpts8.bottomSlot = true ∧ True from ⟨rfl, trivial⟩)]
    rw [if_pos (show (20 : ℝ) + 2 < oracle60 0 0 * 0.995 by norm_num [oracle60])]
    rfl
  exact ⟨hholes, by rw [hholes]; rfl⟩

/-- C1 witness: the amended single-contour statement instantiated at the
scenario-1 inputs. -/
theorem C1_witness :
    (Caps.buildConformingCap oracle60 pLow 0 5 20 slotOpts8).holes
      = [Caps.buildKeyholePath oracle60 0 20 slotOpts8] :=
  (C1_keyhole_single_contour oracle60 pLow 5 20 slotOpts8 rfl).1

/-! ## Claim C4: fallback when the rim clearance is too small -/

/-- C4, corrected: the 2 mm-margin fallback exists only in the radial-slot
variant (`part_000`): whenever `rOuter ≤ rInner + 2` its builder emits only
the plain circular hole and returns normally.  (The canonical keyhole
variant has no such guard — see the counterexample.) -/
theorem C4_part000_fallback (oracle : ℝ → ℝ → ℝ) (p : CapParams)
    (capH holeR : ℝ) (o : SlotOptions)
    (hguard : oracle 0 (jsNullish o.slotAngle 0) * 0.995 ≤ holeR + 2) :
    (Part000.buildConformingCap oracle p 0 capH holeR o).holes
      = [Part000.addCircleHole holeR 96] := by
  simp only [Part000.buildConformingCap]
  by_cases hb : o.bottomSlot = true ∧ True
  · rw [if_pos hb, if_neg (not_lt.mpr hguard)]
  · rw [if_neg hb]

/-- C4 counterexample: with a 1 mm oracle the rim clearance condition
`rOuter ≤ rInner + 2` holds, yet the canonical `buildConformingCap` still
emits the keyhole, not the plain circular hole. -/
theorem C4_counterexample :
    Caps.rOuterOf oracle1 0 20 slotOpts8 ≤ Caps.rInnerOf 20 slotOpts8 + 2
    ∧ (Caps.buildConformingCap oracle1 pLow 0 5 20 slotOpts8).holes
        ≠ [Caps.buildCirclePath 20 96] := by
  constructor
  · have hro : Caps.rOuterOf oracle1 0 20 slotOpts8 = 0.995 := by
      unfold Caps.rOuterOf Caps.rAutoOf Caps.thetaOf jsNullish
      simp only [slotOpts8, Option.getD_some]
      rw [if_neg (by norm_num)]
      norm_num [oracle1]
    rw [hro, Caps.rInnerOf_slotOpts8]
    norm_num
  · have hholes : (Caps.buildConformingCap oracle1 pLow 0 5 20 slotOpts8).holes
        = [Caps.buildKeyholePath oracle1 0 20 slotOpts8] := by
      unfold Caps.buildConformingCap
      rw [if_pos (show slotOpts8.bottomSlot = true ∧ (0 : ℝ) = 0 from ⟨rfl, rfl⟩)]
    rw [hholes]
    intro h
    injection h with hk
    have h1 := congrArg List.head? hk
    rw [Caps.buildKeyholePath_head] at h1
    have h2 : (Caps.buildCirclePath 20 96).head?
        = some (polar 20 (((96 - 0 : ℕ) : ℝ) / 96 * (2 * π))) := by
      unfold Caps.buildCirclePath
      exact head_map_range _ _ (by norm_num)
    rw [h2] at h1
    injection h1 with h3
    have h4 := congrArg Prod.snd h3
    unfold Caps.cROf Caps.phiROf Caps.phi0Of polar at h4
    rw [Caps.thetaOf_slotOpts8, Caps.alphaOf_slotOpts8, Caps.rInnerOf_slotOpts8]
      at h4
    simp only at h4
    rw [show (0 : ℝ) + π / 2 - Real.arcsin (1 / 5) = π / 2 - Real.arcsin (1 / 5)
          by ring,
        Real.sin_pi_div_two_sub] at h4
    rw [show (((96 - 0 : ℕ) : ℝ)) / 96 * (2 * π) = 2 * π by norm_num,
        Real.sin_two_pi] at h4
    have hcos := Caps.cos_arcsin_fifth_pos
    nlinarith

/-- C4 witness: the fallback statement instantiated at the tight-rim
oracle. -/
theorem C4_witness :
    (Part000.buildConformingCap oracle1 pLow 0 5 20 slotOpts8).holes
      = [Part000.addCircleHole 20 96] :=
  C4_part000_fallback oracle1 pLow 5 20 slotOpts8
    (by norm_num [oracle1, jsNullish, slotOpts8])

/-! ## Claim C5: asin clamping keeps the keyhole well-defined and closed -/

/-- C5, confirmed: for every slot width (including `halfW ≥ holeR`) the asin
argument is clamped to at most `1 - 1e-6`, so the tangency half-angle is a
well-defined value strictly between `0` and `π/2` (in this real-number
model no NaN can arise), and the keyhole contour still closes (its first
and last vertices coincide); at the scenario-2 input (width 40 with
`holeR = 20`, ratio 1) the clamp is active: `sinAlpha = 1 - 1e-6` exactly. -/
theorem C5_clamped_asin_closure :
    (∀ (oracle : ℝ → ℝ → ℝ) (vFrac holeR : ℝ) (o : SlotOptions),
        0 < Caps.sinAlphaOf holeR o
      ∧ Caps.sinAlphaOf holeR o ≤ 1 - 1e-6
      ∧ 0 < Caps.alphaOf holeR o
      ∧ Caps.alphaOf holeR o < π / 2
      ∧ (Caps.buildKeyholePath oracle vFrac holeR o).head?
          = (Caps.buildKeyholePath oracle vFrac holeR o).getLast?)
    ∧ Caps.sinAlphaOf 20 slotOpts40 = 1 - 1e-6 := by
  constructor
  · intro oracle vFrac holeR o
    exact ⟨Caps.sinAlphaOf_pos holeR o, Caps.sinAlphaOf_le holeR o,
      Caps.alphaOf_pos holeR o, Caps.alphaOf_lt_pi_div_two holeR o,
      by rw [Caps.buildKeyholePath_head, Caps.buildKeyholePath_getLast]⟩
  · have h1 : max (0.5 : ℝ) 40 = 40 := max_eq_right (by norm_num)
    have h2 : max (0.1 : ℝ) (20 + 0.0) = 20 := by
      rw [max_eq_right (by norm_num)]
      norm_num
    unfold Caps.sinAlphaOf Caps.halfWOf Caps.widthOf Caps.rInnerOf Caps.offsetOf
      jsNullish
    simp only [slotOpts40, Option.getD_some, Option.getD_none]
    rw [h1, h2]
    rw [min_eq_left (by norm_num)]

/-! ## Claim C6: scenario 1 — tangency half-angle and tip radius -/

/-- C6, confirmed: with `holeR = 20`, `width = 8`, auto length,
`centerlineAngle = 0` and a boundary oracle returning 60 at height 0 and
angle 0, the keyhole build computes `α = asin (4/20)` (numerically between
0.2 and 0.21, matching ≈ 0.2014) and
`rTip = 60·0.995 + 4 + 1 = 64.7` with `rOuter = 60·0.995`. -/
theorem C6_scenario1 (oracle : ℝ → ℝ → ℝ) (hor : oracle 0 0 = 60) :
    Caps.alphaOf 20 slotOpts8 = Real.arcsin (4 / 20)
    ∧ 0.2 < Caps.alphaOf 20 slotOpts8
    ∧ Caps.alphaOf 20 slotOpts8 < 0.21
    ∧ Caps.rOuterOf oracle 0 20 slotOpts8 = 60 * 0.995
    ∧ Caps.rTipOf oracle 0 20 slotOpts8 = 64.7 := by
  have hα : Caps.alphaOf 20 slotOpts8 = Real.arcsin (1 / 5) :=
    Caps.alphaOf_slotOpts8
  have h45 : (4 : ℝ) / 20 = 1 / 5 := by norm_num
  have hrOuter : Caps.rOuterOf oracle 0 20 slotOpts8 = 60 * 0.995 := by
    unfold Caps.rOuterOf Caps.rAutoOf Caps.thetaOf jsNullish
    simp only [slotOpts8, Option.getD_some]
    rw [if_neg (by norm_num)]
    rw [hor]
  refine ⟨by rw [hα, h45], ?_, ?_, hrOuter, ?_⟩
  · rw [hα]
    have hpos : (0 : ℝ) < Real.arcsin (1 / 5) := Real.arcsin_pos.mpr (by norm_num)
    have hsin : Real.sin (Real.arcsin (1 / 5)) = 1 / 5 :=
      Real.sin_arcsin (by norm_num) (by norm_num)
    have hlt := Real.sin_lt hpos
    rw [hsin] at hlt
    linarith
  · rw [hα]
    by_contra hcon
    push_neg at hcon
    have hmono := Real.strictMonoOn_sin.monotoneOn
    have hmem1 : (0.21 : ℝ) ∈ Set.Icc (-(π / 2)) (π / 2) := by
      constructor <;> nlinarith [Real.pi_gt_three]
    have hmem2 : Real.arcsin (1 / 5) ∈ Set.Icc (-(π / 2)) (π / 2) :=
      ⟨by nlinarith [Real.arcsin_pos.mpr (show (0 : ℝ) < 1 / 5 by norm_num),
          Real.pi_gt_three],
        le_of_lt (Real.arcsin_lt_pi_div_two.mpr (by norm_num))⟩
    have hle := hmono hmem1 hmem2 hcon
    rw [Real.sin_arcsin (by norm_num) (by norm_num)] at hle
    have hgt := Real.sin_gt_sub_cube (show (0 : ℝ) < 0.21 by norm_num)
      (by norm_num)
    norm_num at hgt
    linarith
  · unfold Caps.rTipOf
    rw [hrOuter]
    have hhw : Caps.halfWOf slotOpts8 = 4 := by
      unfold Caps.halfWOf Caps.widthOf jsNullish
      simp only [slotOpts8, Option.getD_some]
      rw [max_eq_right (by norm_num)]
      norm_num
    have hov : Caps.overshootOf slotOpts8 = 1 := by
      unfold Caps.overshootOf jsNullish
      simp [slotOpts8]
      norm_num
    rw [hhw, hov]
    norm_num

/-- C6 witness: the scenario instantiated with the constant-60 oracle. -/
theorem C6_witness :
    Caps.alphaOf 20 slotOpts8 = Real.arcsin (4 / 20)
    ∧ 0.2 < Caps.alphaOf 20 slotOpts8
    ∧ Caps.alphaOf 20 slotOpts8 < 0.21
    ∧ Caps.rOuterOf oracle60 0 20 slotOpts8 = 60 * 0.995
    ∧ Caps.rTipOf oracle60 0 20 slotOpts8 = 64.7 :=
  C6_scenario1 oracle60 rfl

/-! ## Claim C7: winding of the outer contour and the hole contours -/

/-- C7, corrected: in the canonical variant the outer contour has positive
signed area (counterclockwise) and — when the aperture is the plain
circular hole — every hole contour has negative signed area (clockwise),
i.e. opposite winding; but the `part_000` variant's `addCircleHole` traces
its 96-segment circle with ASCENDING angle, so that hole's signed area is
positive, the SAME winding as the outer contour. -/
theorem C7_winding (oracle : ℝ → ℝ → ℝ) (p : CapParams) (vFrac capH holeR : ℝ)
    (o : SlotOptions) (hr : 0 < holeR) (hor : ∀ ang, 0 < oracle vFrac ang)
    (hns : ¬ (o.bottomSlot = true ∧ vFrac = 0)) :
    0 < shoelace (Caps.buildConformingCap oracle p vFrac capH holeR o).outer
    ∧ (∀ h ∈ (Caps.buildConformingCap oracle p vFrac capH holeR o).holes,
        shoelace h < 0)
    ∧ 0 < shoelace (Part000.addCircleHole holeR 96) := by
  have houter : (Caps.buildConformingCap oracle p vFrac capH holeR o).outer
      = Caps.buildOuterContour oracle vFrac (radialSegOf p.res) := rfl
  have hholes : (Caps.buildConformingCap oracle p vFrac capH holeR o).holes
      = [Caps.buildCirclePath holeR 96] := by
    unfold Caps.buildConformingCap
    rw [if_neg hns]
  refine ⟨?_, ?_, shoelace_addCircleHole_pos holeR hr 96 (by norm_num)⟩
  · rw [houter]
    exact shoelace_buildOuterContour_pos oracle vFrac _
      (three_le_radialSegOf p.res) hor
  · rw [hholes]
    intro h hmem
    rw [List.mem_singleton] at hmem
    subst hmem
    exact shoelace_buildCirclePath_neg holeR hr 96 (by norm_num)

/-- C7 counterexample: a concrete `part_000` top-cap build in which the
outer contour AND its only hole contour both have positive signed area —
the circular hole is wound the same way as the outer boundary. -/
theorem C7_counterexample :
    0 < shoelace (Part000.buildConformingCap oracle60 pLow 1 5 20 slotOpts8).outer
    ∧ (Part000.buildConformingCap oracle60 pLow 1 5 20 slotOpts8).holes
        = [Part000.addCircleHole 20 96]
    ∧ 0 < shoelace (Part000.addCircleHole 20 96) := by
  have houter : (Part000.buildConformingCap oracle60 pLow 1 5 20 slotOpts8).outer
      = Caps.buildOuterContour oracle60 1 96 := rfl
  have hholes : (Part000.buildConformingCap oracle60 pLow 1 5 20 slotOpts8).holes
      = [Part000.addCircleHole 20 96] := by
    simp only [Part000.buildConformingCap]
    rw [if_neg (fun hc => absurd hc.2 (by norm_num))]
  refine ⟨?_, hholes,
    shoelace_addCircleHole_pos 20 (by norm_num) 96 (by norm_num)⟩
  rw [houter]
  exact shoelace_buildOuterContour_pos oracle60 1 96 (by norm_num)
    (fun _ => by norm_num [oracle60])

/-- C7 witness: the amended winding statement at a concrete slotless
top-cap build. -/
theorem C7_witness :
    0 < shoelace (Caps.buildConformingCap oracle60 pLow 1 5 20 slotOptsNone).outer
    ∧ shoelace (Caps.buildCirclePath 20 96) < 0
    ∧ 0 < shoelace (Part000.addCircleHole 20 96) := by
  have h := C7_winding oracle60 pLow 1 5 20 slotOptsNone (by norm_num)
    (fun _ => by norm_num [oracle60]) (by simp [slotOptsNone])
  refine ⟨h.1, ?_, h.2.2⟩
  apply h.2.1
  show Caps.buildCirclePath 20 96
      ∈ (Caps.buildConformingCap oracle60 pLow 1 5 20 slotOptsNone).holes
  unfold Caps.buildConformingCap
  rw [if_neg (fun hc => absurd hc.2 (by norm_num))]
  simp

/-! ## Claim C8: the top cap ignores slot options; debug guard -/

/-- C8, confirmed: for heightFraction 1 the canonical `buildConformingCap`
emits the plain 96-segment circular hole regardless of the slot options,
and `buildSlotDebug` returns `none` whenever the slot is disabled or the
height fraction is not 0. -/
theorem C8_top_cap_and_debug :
    (∀ (oracle : ℝ → ℝ → ℝ) (p : CapParams) (capH holeR : ℝ) (o : SlotOptions),
        (Caps.buildConformingCap oracle p 1 capH holeR o).holes
          = [Caps.buildCirclePath holeR 96])
    ∧ (∀ (oracle : ℝ → ℝ → ℝ) (vFrac holeR : ℝ) (o : SlotOptions),
        (¬ o.bottomSlot = true ∨ vFrac ≠ 0) →
          Caps.buildSlotDebug oracle vFrac holeR o = none) := by
  constructor
  · intro oracle p capH holeR o
    unfold Caps.buildConformingCap
    rw [if_neg (fun hc => absurd hc.2 (by norm_num))]
  · intro oracle vFrac holeR o hcond
    unfold Caps.buildSlotDebug
    rw [if_pos hcond]

/-- C8 witness: the top-cap and debug-guard statement instantiated at
concrete inputs with `bottomSlot = true` but `heightFraction = 1`. -/
theorem C8_witness :
    (Caps.buildConformingCap oracle60 pLow 1 5 20 slotOpts8).holes
      = [Caps.buildCirclePath 20 96]
    ∧ Caps.buildSlotDebug oracle60 1 20 slotOpts8 = none :=
  ⟨C8_top_cap_and_debug.1 oracle60 pLow 5 20 slotOpts8,
   C8_top_cap_and_debug.2 oracle60 1 20 slotOpts8 (Or.inr (by norm_num))⟩

/-! ## Claim C9: axial placement of the extruded cap -/

/-- C9, confirmed: the bottom cap spans `z ∈ [0, capH]` and the top cap
spans `z ∈ [height - capH, height]`; in particular with `capH = 5` and
`height = 230` the spans are `[0, 5]` and `[225, 230]`. -/
theorem C9_axial_placement (oracle : ℝ → ℝ → ℝ) (p : CapParams)
    (capH holeR : ℝ) (o : SlotOptions) :
    ((Caps.buildConformingCap oracle p 0 capH holeR o).zMin = 0
      ∧ (Caps.buildConformingCap oracle p 0 capH holeR o).zMax = capH)
    ∧ ((Caps.buildConformingCap oracle p 1 capH holeR o).zMin = p.height - capH
      ∧ (Caps.buildConformingCap oracle p 1 capH holeR o).zMax = p.height)
    ∧ ((Caps.buildConformingCap oracle60 pLow 0 5 20 slotOptsNone).zMin = 0
      ∧ (Caps.buildConformingCap oracle60 pLow 0 5 20 slotOptsNone).zMax = 5
      ∧ (Caps.buildConformingCap oracle60 pLow 1 5 20 slotOptsNone).zMin = 225
      ∧ (Caps.buildConformingCap oracle60 pLow 1 5 20 slotOptsNone).zMax = 230) := by
  refine ⟨⟨?_, ?_⟩, ⟨?_, ?_⟩, ?_, ?_, ?_, ?_⟩ <;>
    (simp [Caps.buildConformingCap, pLow]; try norm_num)

/-! ## Claim C10: non-positive or absent slot lengths mean auto-to-rim -/

/-- C10, confirmed: whenever `slotLength` is absent, zero or negative, the
corridor outer radius is the auto-to-rim value `oracle(vFrac, θ) * 0.995` —
identical to the `slotLength = 0` result — so a negative explicit length
never produces an inverted corridor.  (A NaN length follows the same falsy
branch in the JavaScript source; NaN has no counterpart in this real-number
model.) -/
theorem C10_auto_length (oracle : ℝ → ℝ → ℝ) (vFrac holeR : ℝ)
    (o : SlotOptions)
    (hL : o.slotLength = none ∨ ∃ L, o.slotLength = some L ∧ L ≤ 0) :
    Caps.rOuterOf oracle vFrac holeR o = oracle vFrac (Caps.thetaOf o) * 0.995
    ∧ Caps.rOuterOf oracle vFrac holeR o
        = Caps.rOuterOf oracle vFrac holeR { o with slotLength := some 0 } := by
  have hsame : Caps.rOuterOf oracle vFrac holeR { o with slotLength := some 0 }
      = oracle vFrac (Caps.thetaOf o) * 0.995 := by
    unfold Caps.rOuterOf Caps.rAutoOf
    simp only
    rw [if_neg (by norm_num)]
    rfl
  have hauto : Caps.rOuterOf oracle vFrac holeR o
      = oracle vFrac (Caps.thetaOf o) * 0.995 := by
    unfold Caps.rOuterOf Caps.rAutoOf
    rcases hL with hnone | ⟨L, hsome, hle⟩
    · rw [hnone]
    · rw [hsome]
      simp only
      rw [if_neg (not_lt.mpr hle)]
  exact ⟨hauto, by rw [hauto, hsame]⟩

/-- C10 witness: the auto-length statement instantiated at an explicit
negative length of −5 mm. -/
theorem C10_witness :
    Caps.rOuterOf oracle60 0 20 slotOptsNeg
        = oracle60 0 (Caps.thetaOf slotOptsNeg) * 0.995
    ∧ Caps.rOuterOf oracle60 0 20 slotOptsNeg
        = Caps.rOuterOf oracle60 0 20 { slotOptsNeg with slotLength := some 0 } :=
  C10_auto_length oracle60 0 20 slotOptsNeg (Or.inr ⟨-5, rfl, by norm_num⟩)
